import Mathlib

/-!
# Verification of the transaction fee analytics core

Shallow embedding, in exact rational arithmetic, of the algorithmic core of
the repository:

* `recon_agent/agent/tools/fee_verifier.py` (`compare_fees`,
  `verify_transaction_fees`, `calculate_verification_confidence`),
* `recon_agent/agent/tools/fee_calculator.py` (`calculate_remuneration`,
  `calculate_chargeback_fee`, `calculate_refund_fee`,
  `calculate_expected_fees`),
* `recon_agent/agent/tools/rr_calculator.py` (`RollingReserveTracker`),
* `recon_agent/agent/tools/excel_loader.py` (`parse_decimal`),
* `recon_agent/agent/tools/field_detector.py` (`detect_fee_columns`,
  `calculate_match_confidence`, `levenshtein_distance`),
* `fintech_junkie/src/transaction_analysis/scripts/sorting_algorithm.py`
  (`analyze_rates_sorting`),
* `fintech_junkie/src/transaction_analysis/scripts/kmeans_algorithm.py`
  (`analyze_rates_kmeans`, `_fit_linear_model`).

Python `Decimal` values and floats are modelled as `ℚ`; dates are modelled
as integer day numbers; dictionaries of cells as association lists.  Output
fields that are pure presentation (formatted breakdown strings, transaction
id strings) are represented by the data that feeds them or omitted, as noted
at each definition.
-/

/- ## Rounding helpers -/

/-- Integer rounding of a rational with ties going away from zero.  This is
the rounding mode of Python `decimal`'s `ROUND_HALF_UP`. -/
def roundHalfAway (x : ℚ) : ℤ :=
  if 0 ≤ x then ⌊x + 1/2⌋ else -⌊-x + 1/2⌋

/-- `d.quantize(Decimal("0.01"), ROUND_HALF_UP)`: round to two decimal
places, ties away from zero. -/
def quantize2 (q : ℚ) : ℚ := (roundHalfAway (q * 100) : ℚ) / 100

/-- Integer rounding of a rational with ties going to the even neighbour,
the behaviour of Python's built-in `round` (on exact values; the binary
floating point representation error of CPython is not modelled). -/
def roundHalfEven (x : ℚ) : ℤ :=
  if x - ⌊x⌋ < 1/2 then ⌊x⌋
  else if 1/2 < x - ⌊x⌋ then ⌊x⌋ + 1
  else if ⌊x⌋ % 2 = 0 then ⌊x⌋ else ⌊x⌋ + 1

/-- Python `round(q, n)` for `n` decimal digits. -/
def pyRound (n : ℕ) (q : ℚ) : ℚ := (roundHalfEven (q * 10 ^ n) : ℚ) / 10 ^ n

/- ## Cell values and `parse_decimal` (excel_loader.py) -/

/-- A raw transaction cell: Python `None`/`NaN`, a numeric value, or a
string. -/
inductive PyValue where
  | vnull
  | vnum (q : ℚ)
  | vstr (s : String)
deriving DecidableEq

/-- Python truthiness of a cell value (`if transaction.get(col):`). -/
def PyValue.truthy : PyValue → Bool
  | .vnull => false
  | .vnum q => decide (q ≠ 0)
  | .vstr s => decide (s ≠ "")

/-- Python `value is not None and value != 0` on a raw cell.  A string
compares unequal to the integer `0` in Python, so any string passes. -/
def PyValue.nonzeroCell : PyValue → Bool
  | .vnull => false
  | .vnum q => decide (q ≠ 0)
  | .vstr _ => true

def digitVal (c : Char) : ℕ := c.toNat - '0'.toNat

/-- Accumulate a digit string into a natural number; `none` if any
character is not a digit. -/
def digitsToNat : List Char → ℕ → Option ℕ
  | [], acc => some acc
  | c :: cs, acc =>
    if c.isDigit then digitsToNat cs (acc * 10 + digitVal c) else none

/-- Parse an unsigned decimal literal: digits with at most one decimal
point, at least one digit in total. -/
def decOfCharsUnsigned (cs : List Char) : Option ℚ :=
  let ip := cs.takeWhile (fun c => c ≠ '.')
  let rest := cs.dropWhile (fun c => c ≠ '.')
  match rest with
  | [] =>
    match digitsToNat ip 0 with
    | some n => if ip.isEmpty then none else some (n : ℚ)
    | none => none
  | _ :: frac =>
    match digitsToNat ip 0, digitsToNat frac 0 with
    | some n, some f =>
      if ip.isEmpty && frac.isEmpty then none
      else some ((n : ℚ) + (f : ℚ) / (10 : ℚ) ^ frac.length)
    | _, _ => none

/-- The subset of strings `Decimal(str)` accepts that this embedding
models: optional sign, digits, optional decimal point.  (Python's
constructor additionally accepts exponents and the special values
`Infinity`/`NaN`; no claim depends on those.) -/
def decOfChars : List Char → Option ℚ
  | '+' :: t => decOfCharsUnsigned t
  | '-' :: t => (decOfCharsUnsigned t).map (fun q => -q)
  | t => decOfCharsUnsigned t

/-- `needle` is a prefix of `hay` (Python `str.startswith`). -/
def begMatch : List Char → List Char → Bool
  | [], _ => true
  | _ :: _, [] => false
  | a :: s, b :: t => a = b && begMatch s t

/-- Python `str.replace(needle, "")` on character lists: delete every
non-overlapping occurrence of a nonempty `needle`, scanning left to
right.  The fuel argument (instantiated with the list length, an upper
bound on the recursion depth) keeps the recursion structural. -/
def delAllFuel (needle : List Char) : ℕ → List Char → List Char
  | _, [] => []
  | 0, l => l
  | fuel + 1, c :: t =>
    if begMatch needle (c :: t) then delAllFuel needle fuel ((c :: t).drop needle.length)
    else c :: delAllFuel needle fuel t

def delAll (needle hay : List Char) : List Char :=
  delAllFuel needle hay.length hay

/-- Python `str.strip()` (whitespace at both ends). -/
def trimChars (l : List Char) : List Char :=
  ((l.dropWhile Char.isWhitespace).reverse.dropWhile Char.isWhitespace).reverse

/-- The string cleaning step of `parse_decimal`: strip, then remove the
euro sign, `EUR`, commas and spaces. -/
def cleanNumChars (s : List Char) : List Char :=
  delAll [' '] (delAll [','] (delAll ['E', 'U', 'R'] (delAll ['€'] (trimChars s))))

/-- `excel_loader.parse_decimal`.  The argument is the result of a
dictionary `.get`, hence an `Option`: a missing key gives Python `None`,
which parses to `None`. -/
def parse_decimal : Option PyValue → Option ℚ
  | none => none
  | some .vnull => none
  | some (.vnum q) => some q
  | some (.vstr s) =>
    let cleaned := cleanNumChars s.toList
    if cleaned.isEmpty then none else decOfChars cleaned

/-- A transaction row: an association list from column name to cell
value. -/
abbrev Transaction := List (String × PyValue)

/-- `transaction.get(col)` (`none` both when the key is absent). -/
def txGet (tx : Transaction) (col : String) : Option PyValue :=
  List.lookup col tx

/- ## `compare_fees` (fee_verifier.py) -/

inductive FeeStatus where
  | CORRECT
  | OVERCHARGED
  | UNDERCHARGED
  | MISSING
deriving DecidableEq

structure FeeComparison where
  status : FeeStatus
  difference : Option ℚ
  difference_pct : Option ℚ
  within_tolerance : Bool
deriving DecidableEq

/-- `fee_verifier.compare_fees` (the Python default tolerance is `0.01`;
here it is always passed explicitly). -/
def compare_fees (actual : Option ℚ) (expected tolerance : ℚ) : FeeComparison :=
  match actual with
  | none => ⟨.MISSING, none, none, false⟩
  | some a =>
    let difference := a - expected
    let diff_pct : Option ℚ :=
      if expected ≠ 0 then some (quantize2 (difference / expected * 100))
      else some (if difference = 0 then 0 else 100)
    if |difference| ≤ tolerance then ⟨.CORRECT, some difference, diff_pct, true⟩
    else if tolerance < difference then ⟨.OVERCHARGED, some difference, diff_pct, false⟩
    else ⟨.UNDERCHARGED, some difference, diff_pct, false⟩

/- ## Contract and detection inputs -/

/-- The numeric fields of `DintaresContract` used by the fee calculator. -/
structure DintaresContract where
  remuneration_rate : ℚ
  chargeback_cost : ℚ
  refund_cost : ℚ
  rolling_reserve_rate : ℚ
  rolling_reserve_days : ℤ
  rolling_reserve_cap : ℚ

/-- The `detected_columns` dictionary: for each semantic field, the chosen
column name or Python `None`. -/
structure DetectedColumns where
  transaction_id : Option String
  amount : Option String
  commission : Option String
  rolling_reserve : Option String
  chargeback_fee : Option String
  refund_fee : Option String
  chargeback_qty : Option String
  chargeback_fee_collected : Option String
  refund_qty : Option String
  refund_fee_collected : Option String
deriving DecidableEq

/-- The `confidence_scores` dictionary restricted to the fields the
verifier and calculator read (`dict.get(field, 0.0)`: a field absent from
the Python dictionary is represented by the value `0`). -/
structure ConfidenceScores where
  transaction_id : ℚ
  amount : ℚ
  commission : ℚ
  rolling_reserve : ℚ
  chargeback_fee : ℚ
  refund_fee : ℚ
deriving DecidableEq

/- ## `fee_calculator.py` -/

structure RemunerationResult where
  fee : ℚ
  amount : ℚ
  rate : ℚ
deriving DecidableEq

/-- `fee_calculator.calculate_remuneration`.  The `breakdown` dictionary is
flattened into the `amount` and `rate` fields; its formatted calculation
string is presentation only and is not modelled. -/
def calculate_remuneration (amount rate : ℚ) : RemunerationResult :=
  { fee := quantize2 (amount * rate), amount := amount, rate := rate }

/-- `fee_calculator.calculate_chargeback_fee` (the returned fee; the
breakdown string is not modelled). -/
def calculate_chargeback_fee (is_chargeback : Bool) (cost : ℚ) : ℚ :=
  if is_chargeback then cost else 0

/-- `fee_calculator.calculate_refund_fee`. -/
def calculate_refund_fee (is_refund : Bool) (cost : ℚ) : ℚ :=
  if is_refund then cost else 0

structure ExpectedFeesResult where
  remuneration : ℚ
  chargeback : ℚ
  refund : ℚ
  total_fees : ℚ
  missing_data : List String
deriving DecidableEq

/-- `fee_calculator.calculate_expected_fees`.  The `breakdown` field of the
Python result (formatted strings) is not modelled.  The Python
`confidence_scores=None` default behaves as all-zero scores, which the
caller of this embedding represents explicitly. -/
def calculate_expected_fees (tx : Transaction) (contract : DintaresContract)
    (detected : DetectedColumns) (conf : ConfidenceScores) : ExpectedFeesResult :=
  match detected.amount with
  | none => ⟨0, 0, 0, 0, ["amount"]⟩
  | some amount_col =>
    match txGet tx amount_col with
    | none => ⟨0, 0, 0, 0, ["amount"]⟩
    | some v =>
      match parse_decimal (some v) with
      | none => ⟨0, 0, 0, 0, ["amount (invalid value)"]⟩
      | some amount =>
        let remuneration_fee := (calculate_remuneration amount contract.remuneration_rate).fee
        let is_chargeback : Bool :=
          match detected.chargeback_fee with
          | some cb_col =>
            decide ((0.7 : ℚ) ≤ conf.chargeback_fee) &&
              (match txGet tx cb_col with
               | some w => w.nonzeroCell
               | none => false)
          | none => false
        let chargeback_fee := calculate_chargeback_fee is_chargeback contract.chargeback_cost
        let is_refund : Bool :=
          match detected.refund_fee with
          | some rf_col =>
            decide ((0.7 : ℚ) ≤ conf.refund_fee) &&
              (match txGet tx rf_col with
               | some w => w.nonzeroCell
               | none => false)
          | none => false
        let refund_fee := calculate_refund_fee is_refund contract.refund_cost
        { remuneration := remuneration_fee,
          chargeback := chargeback_fee,
          refund := refund_fee,
          total_fees := remuneration_fee + chargeback_fee + refund_fee,
          missing_data := [] }

/- ## `rr_calculator.RollingReserveTracker` -/

/-- The tracker state.  Dates are integer day numbers; a difference of
calendar `timedelta(days=n)` becomes integer subtraction. -/
structure RollingReserveTracker where
  cap : ℚ
  holding_days : ℤ
  current_balance : ℚ
  holdings : List (ℤ × ℚ)
deriving DecidableEq

/-- `RollingReserveTracker.__init__`. -/
def initTracker (cap : ℚ) (holding_days : ℤ) : RollingReserveTracker :=
  ⟨cap, holding_days, 0, []⟩

structure CalcRRResult where
  rr_amount : ℚ
  applied_amount : ℚ
  capped : Bool
  current_balance : ℚ
  remaining_capacity : ℚ
deriving DecidableEq

/-- `RollingReserveTracker.calculate_rr`: returns the updated tracker and
the result dictionary (its `breakdown` calculation string is not
modelled).  A holding entry is appended only when a date is supplied, as in
the source (`if date:`). -/
def calculate_rr (t : RollingReserveTracker) (amount rate : ℚ) (date : Option ℤ) :
    RollingReserveTracker × CalcRRResult :=
  let rr_amount := quantize2 (amount * rate)
  let capped := decide (t.cap < t.current_balance + rr_amount)
  let applied_amount :=
    if t.cap < t.current_balance + rr_amount then t.cap - t.current_balance else rr_amount
  let balance := t.current_balance + applied_amount
  let holdings :=
    match date with
    | some d => t.holdings ++ [(d, applied_amount)]
    | none => t.holdings
  ({ t with current_balance := balance, holdings := holdings },
   { rr_amount := rr_amount, applied_amount := applied_amount, capped := capped,
     current_balance := balance, remaining_capacity := t.cap - balance })

/-- `RollingReserveTracker.release_expired`: returns the updated tracker
and the returned amount.  When nothing qualifies for release the Python
`sum` of the empty generator is the integer `0`, and the final
`released_amount.quantize(...)` raises `AttributeError` (`int` has no
`quantize`); that exception is modelled as `none`.  The state mutations
happen before the failing `return`, so the tracker is updated in both
cases, as in the source. -/
def release_expired (t : RollingReserveTracker) (current_date : ℤ) :
    RollingReserveTracker × Option ℚ :=
  let release_date := current_date - t.holding_days
  let to_release := t.holdings.filter (fun h => h.1 ≤ release_date)
  let kept := t.holdings.filter (fun h => release_date < h.1)
  let released := (to_release.map Prod.snd).sum
  ({ t with holdings := kept, current_balance := t.current_balance - released },
   if to_release.isEmpty then none else some (quantize2 released))

/-- A call in a tracker usage sequence: `calculate_rr` (with its optional
date) or `release_expired`. -/
inductive RRStep where
  | calcRR (amount rate : ℚ) (date : Option ℤ)
  | release (current_date : ℤ)

/-- Run a sequence of tracker calls, keeping only the evolving state. -/
def runSteps (t : RollingReserveTracker) : List RRStep → RollingReserveTracker
  | [] => t
  | .calcRR a r d :: rest => runSteps (calculate_rr t a r d).1 rest
  | .release d :: rest => runSteps (release_expired t d).1 rest

/- ## `verify_transaction_fees` (fee_verifier.py) -/

inductive OverallStatus where
  | CORRECT
  | HAS_ERRORS
  | QUESTIONABLE
deriving DecidableEq

/-- The assumptions `verify_transaction_fees` can append.  The Python
strings are modelled as tagged values; only their identity and count are
consumed downstream (the count feeds the confidence penalty). -/
inductive Assumption where
  | txIdLowConfidence (col : String)
  | commissionNotFound
  | rollingReserveNotFound
  | chargebackExpectedNotFound
  | refundExpectedNotFound
deriving DecidableEq

/-- One entry of the `verifications` dictionary. -/
structure FeeVerification where
  expected : ℚ
  actual : Option ℚ
  comparison : FeeComparison
deriving DecidableEq

/-- The `expected_fees` dictionary: a key may be absent (`Option`);
`expected_fees.get(k, Decimal("0.00"))` becomes `Option.getD _ 0`. -/
structure ExpectedFees where
  remuneration : Option ℚ
  rolling_reserve : Option ℚ
  chargeback : Option ℚ
  refund : Option ℚ
deriving DecidableEq

/-- The result of `verify_transaction_fees`.  The formatted
`transaction_id` string (actual id or sheet/row fallback) is presentation
only and is not modelled; the assumption its computation may append is. -/
structure TransactionVerificationResult where
  verifications_remuneration : FeeVerification
  verifications_rolling_reserve : FeeVerification
  verifications_chargeback : Option FeeVerification
  verifications_refund : Option FeeVerification
  overall_status : OverallStatus
  error_count : ℕ
  confidence : ℚ
  assumptions : List Assumption
deriving DecidableEq

/-- `fee_verifier.calculate_verification_confidence`. -/
def calculate_verification_confidence (conf : ConfidenceScores)
    (assumption_count error_count : ℕ) : ℚ :=
  let base_confidence := (conf.amount + conf.commission + conf.rolling_reserve) / 3
  let min_critical := min conf.amount (min conf.commission conf.rolling_reserve)
  let low_confidence_penalty : ℚ := if min_critical < 0.6 then 0.2 else 0
  let assumption_penalty := min ((assumption_count : ℚ) * 0.05) 0.3
  let error_penalty := min ((error_count : ℚ) * 0.02) 0.1
  pyRound 2
    (max 0 (base_confidence - low_confidence_penalty - assumption_penalty - error_penalty))

/-- A comparison counts as an error iff it is out of tolerance and not
`MISSING`. -/
def feeError (cmp : FeeComparison) : ℕ :=
  if cmp.within_tolerance = false ∧ cmp.status ≠ .MISSING then 1 else 0

/-- The chargeback section of `verify_transaction_fees`: the
quantity-based path, falling back to the expected-fee path (`elif`).
Returns the optional `verifications["chargeback"]` entry, the error
increment and the appended assumptions. -/
def chargebackPart (tx : Transaction) (detected : DetectedColumns)
    (expected : ExpectedFees) (tolerance : ℚ) :
    Option FeeVerification × ℕ × List Assumption :=
  let oldPath : Option FeeVerification × ℕ × List Assumption :=
    if 0 < expected.chargeback.getD 0 then
      let actualPair : Option ℚ × List Assumption :=
        match detected.chargeback_fee with
        | some col =>
          match txGet tx col with
          | some v => (parse_decimal (some v), [])
          | none => (none, [Assumption.chargebackExpectedNotFound])
        | none => (none, [Assumption.chargebackExpectedNotFound])
      let cmp := compare_fees actualPair.1 (expected.chargeback.getD 0) tolerance
      (some ⟨expected.chargeback.getD 0, actualPair.1, cmp⟩, feeError cmp, actualPair.2)
    else (none, 0, [])
  match detected.chargeback_qty, detected.chargeback_fee_collected with
  | some qty_col, some coll_col =>
    match txGet tx qty_col, txGet tx coll_col with
    | some qv, some cv =>
      let actual := parse_decimal (some cv)
      match parse_decimal (some qv) with
      | some q =>
        if 0 < q then
          let expected_cb := q * 50
          let cmp := compare_fees actual expected_cb tolerance
          (some ⟨expected_cb, actual, cmp⟩, feeError cmp, [])
        else (none, 0, [])
      | none => (none, 0, [])
    | _, _ => oldPath
  | _, _ => oldPath

/-- The refund section of `verify_transaction_fees`, mirroring
`chargebackPart` with the flat `5.00` contractual fee. -/
def refundPart (tx : Transaction) (detected : DetectedColumns)
    (expected : ExpectedFees) (tolerance : ℚ) :
    Option FeeVerification × ℕ × List Assumption :=
  let oldPath : Option FeeVerification × ℕ × List Assumption :=
    if 0 < expected.refund.getD 0 then
      let actualPair : Option ℚ × List Assumption :=
        match detected.refund_fee with
        | some col =>
          match txGet tx col with
          | some v => (parse_decimal (some v), [])
          | none => (none, [Assumption.refundExpectedNotFound])
        | none => (none, [Assumption.refundExpectedNotFound])
      let cmp := compare_fees actualPair.1 (expected.refund.getD 0) tolerance
      (some ⟨expected.refund.getD 0, actualPair.1, cmp⟩, feeError cmp, actualPair.2)
    else (none, 0, [])
  match detected.refund_qty, detected.refund_fee_collected with
  | some qty_col, some coll_col =>
    match txGet tx qty_col, txGet tx coll_col with
    | some qv, some cv =>
      let actual := parse_decimal (some cv)
      match parse_decimal (some qv) with
      | some q =>
        if 0 < q then
          let expected_rf := q * 5
          let cmp := compare_fees actual expected_rf tolerance
          (some ⟨expected_rf, actual, cmp⟩, feeError cmp, [])
        else (none, 0, [])
      | none => (none, 0, [])
    | _, _ => oldPath
  | _, _ => oldPath

/-- The final status classification of `verify_transaction_fees`. -/
def overallStatusOf (error_count : ℕ) (confidence : ℚ) : OverallStatus :=
  if error_count = 0 then .CORRECT
  else if confidence < 0.7 then .QUESTIONABLE
  else .HAS_ERRORS

/-- `fee_verifier.verify_transaction_fees` (the Python default tolerance is
`0.01`; here it is always passed explicitly). -/
def verify_transaction_fees (tx : Transaction) (expected : ExpectedFees)
    (detected : DetectedColumns) (conf : ConfidenceScores) (tolerance : ℚ) :
    TransactionVerificationResult :=
  let useActualId : Bool :=
    match detected.transaction_id with
    | some col =>
      (match txGet tx col with
       | some v => v.truthy
       | none => false) && decide ((0.7 : ℚ) ≤ conf.transaction_id)
    | none => false
  let idAssumptions : List Assumption :=
    if useActualId then []
    else
      match detected.transaction_id with
      | some col => if conf.transaction_id < 0.7 then [.txIdLowConfidence col] else []
      | none => []
  let commissionPair : Option ℚ × List Assumption :=
    match detected.commission with
    | some col =>
      match txGet tx col with
      | some v => (parse_decimal (some v), [])
      | none => (none, [Assumption.commissionNotFound])
    | none => (none, [Assumption.commissionNotFound])
  let rem_cmp := compare_fees commissionPair.1 (expected.remuneration.getD 0) tolerance
  let rrPair : Option ℚ × List Assumption :=
    match detected.rolling_reserve with
    | some col =>
      match txGet tx col with
      | some v => (parse_decimal (some v), [])
      | none => (none, [Assumption.rollingReserveNotFound])
    | none => (none, [Assumption.rollingReserveNotFound])
  let rr_cmp := compare_fees rrPair.1 (expected.rolling_reserve.getD 0) tolerance
  let cbPart := chargebackPart tx detected expected tolerance
  let rfPart := refundPart tx detected expected tolerance
  let assumptions := idAssumptions ++ commissionPair.2 ++ rrPair.2 ++ cbPart.2.2 ++ rfPart.2.2
  let error_count := feeError rem_cmp + feeError rr_cmp + cbPart.2.1 + rfPart.2.1
  let confidence := calculate_verification_confidence conf assumptions.length error_count
  { verifications_remuneration := ⟨expected.remuneration.getD 0, commissionPair.1, rem_cmp⟩,
    verifications_rolling_reserve := ⟨expected.rolling_reserve.getD 0, rrPair.1, rr_cmp⟩,
    verifications_chargeback := cbPart.1,
    verifications_refund := rfPart.1,
    overall_status := overallStatusOf error_count confidence,
    error_count := error_count,
    confidence := confidence,
    assumptions := assumptions }

/- ## A computable stable insertion sort

`np.argsort` / `list.sort` sort concrete arrays; this embedding uses an
insertion sort (stable, like Python's `list.sort`; for plain rate values
stability is irrelevant and any sort into ascending order is faithful to
`np.argsort`). -/

def insertLe {α : Type} (le : α → α → Bool) (a : α) : List α → List α
  | [] => [a]
  | b :: t => if le a b then a :: b :: t else b :: insertLe le a t

def sortByLe {α : Type} (le : α → α → Bool) : List α → List α
  | [] => []
  | a :: t => insertLe le a (sortByLe le t)

/- ## `analyze_rates_sorting` (sorting_algorithm.py) -/

/-- Step 1–2 of `analyze_rates_sorting`: the rate `commission/amount` of
each row whose amount is positive (in exact rational arithmetic every such
rate is finite, so the `isfinite` part of the mask is automatic). -/
def ratesOf (pairs : List (ℚ × ℚ)) : List ℚ :=
  pairs.filterMap (fun p => if 0 < p.1 then some (p.2 / p.1) else none)

/-- The scan of step 4: on the ascending list of rates, take the window of
points within `eps` of the current point; a window of at least
`min_cluster_size` points becomes a cluster (the scan resumes after it),
otherwise the single current point is left as an outlier.  Returns the
cluster windows in scan order and the outlier count.

The guard `1 ≤ w.length` is automatically true whenever `0 ≤ eps` (the
window always contains its own starting point, as in the Python inner loop
whose first test compares the point with itself); it is required here for
termination.  The remaining case `eps < 0 ∧ min_cluster_size = 0` makes
the Python loop spin forever and is outside this model. -/
def scanClusters (minSize : ℕ) (eps : ℚ) : List ℚ → List (List ℚ) × ℕ
  | [] => ([], 0)
  | r :: rest =>
    let w := (r :: rest).takeWhile (fun x => decide (x - r ≤ eps))
    if h : minSize ≤ w.length ∧ 1 ≤ w.length then
      let res := scanClusters minSize eps ((r :: rest).drop w.length)
      (w :: res.1, res.2)
    else
      let res := scanClusters minSize eps rest
      (res.1, res.2 + 1)
termination_by l => l.length
decreasing_by
  · simp only [List.length_drop]
    exact Nat.sub_lt (Nat.succ_pos _) h.2
  · simp

/-- `np.median` of a list of rationals: middle element of the ascending
order for odd length, average of the two middle elements for even
length.  (Only ever applied to nonempty lists in this development.) -/
def medianOf (l : List ℚ) : ℚ :=
  let s := sortByLe (fun a b => decide (a ≤ b)) l
  if s.length % 2 = 1 then s.getD (s.length / 2) 0
  else (s.getD (s.length / 2 - 1) 0 + s.getD (s.length / 2) 0) / 2

def listMin (l : List ℚ) : ℚ :=
  match l with
  | [] => 0
  | h :: t => t.foldl min h

def listMax (l : List ℚ) : ℚ :=
  match l with
  | [] => 0
  | h :: t => t.foldl max h

/-- One reported cluster of `analyze_rates_sorting`.  The Python labels
array assigns one cluster id per accepted scan window, and the multiset of
rates carrying a given id is exactly that window, so every per-cluster
statistic is a function of the window; `np.argsort`'s tie order affects
only which original row index carries which label, never a reported
value.  `rate_std_dev` (a square root, hence irrational) is outside the
rational embedding and not modelled; no claim reads it. -/
structure SortingClusterInfo where
  cluster_id : ℕ
  rate_percent : ℚ
  transaction_count : ℕ
  percentage_of_total : ℚ
  min_rate_percent : ℚ
  max_rate_percent : ℚ
deriving DecidableEq

/-- The result of `analyze_rates_sorting`.  The `summary` block of overall
statistics and the `parameters` echo are not modelled; no claim reads
them.  `error` is `true` exactly when the Python result carries the
`"error"` key (zero valid transactions). -/
structure SortingAnalysis where
  total_transactions : ℕ
  valid_transactions : ℕ
  outlier_count : ℕ
  outlier_percentage : ℚ
  num_clusters : ℕ
  clusters : List SortingClusterInfo
  error : Bool
deriving DecidableEq

/-- `sorting_algorithm.analyze_rates_sorting`.  The final cluster list is
sorted by descending transaction count with Python's stable sort, mirrored
by the stable insertion sort. -/
def analyze_rates_sorting (pairs : List (ℚ × ℚ))
    (min_rate_diff : ℚ) (min_cluster_size : ℕ) : SortingAnalysis :=
  let total := pairs.length
  let valid_rates := ratesOf pairs
  let valid := valid_rates.length
  if valid = 0 then
    { total_transactions := total, valid_transactions := 0, outlier_count := 0,
      outlier_percentage := 0, num_clusters := 0, clusters := [], error := true }
  else
    let eps := min_rate_diff / 2
    let sorted_rates := sortByLe (fun a b => decide (a ≤ b)) valid_rates
    let scan := scanClusters min_cluster_size eps sorted_rates
    let clustersRaw := scan.1.enum.map (fun seg =>
      ({ cluster_id := seg.1,
         rate_percent := pyRound 4 (medianOf seg.2 * 100),
         transaction_count := seg.2.length,
         percentage_of_total := pyRound 2 ((seg.2.length : ℚ) / (valid : ℚ) * 100),
         min_rate_percent := pyRound 4 (listMin seg.2 * 100),
         max_rate_percent := pyRound 4 (listMax seg.2 * 100) } : SortingClusterInfo))
    let clusters := sortByLe (fun a b => decide (b.transaction_count ≤ a.transaction_count))
      clustersRaw
    { total_transactions := total,
      valid_transactions := valid,
      outlier_count := scan.2,
      outlier_percentage := pyRound 2 ((scan.2 : ℚ) / (valid : ℚ) * 100),
      num_clusters := scan.1.length,
      clusters := clusters,
      error := false }

/- ## `analyze_rates_kmeans` (kmeans_algorithm.py) -/

/-- `kmeans_algorithm._fit_linear_model` in exact arithmetic.  For two or
more points `np.linalg.lstsq` returns the least-squares solution of
`commission = rate × amount + fee`: the normal-equation solution when the
design matrix has full rank (`d ≠ 0`, i.e. not all amounts equal) and the
minimum-norm least-squares solution otherwise.  The fitted fee is clamped
to be non-negative, as in the source. -/
def fit_linear_model (pts : List (ℚ × ℚ)) : ℚ × ℚ :=
  match pts with
  | [] => (0, 0)
  | [p] => (if 0 < p.1 then p.2 / p.1 else 0, 0)
  | _ :: _ :: _ =>
    let n : ℚ := pts.length
    let sa := (pts.map Prod.fst).sum
    let sc := (pts.map Prod.snd).sum
    let saa := (pts.map (fun p => p.1 * p.1)).sum
    let sac := (pts.map (fun p => p.1 * p.2)).sum
    let d := n * saa - sa * sa
    if d ≠ 0 then
      let rate := (n * sac - sa * sc) / d
      let fee := (sc - rate * sa) / n
      (rate, max 0 fee)
    else
      let a := (pts.headD (0, 0)).1
      let m := sc / n
      (m * a / (a * a + 1), max 0 (m / (a * a + 1)))

/-- The sum of squared residuals of the linear model `c = r·a + f` over a
point list — the objective `np.linalg.lstsq` minimizes. -/
def ssrOf (pts : List (ℚ × ℚ)) (rf : ℚ × ℚ) : ℚ :=
  (pts.map (fun p => (p.2 - (rf.1 * p.1 + rf.2)) ^ 2)).sum

/-- A cluster reported by the small-sample fallback of
`analyze_rates_kmeans` (this branch's dictionaries carry exactly these
keys). -/
structure KMeansClusterInfo where
  cluster_id : ℕ
  rate_percent : ℚ
  minimal_fee : ℚ
  transaction_count : ℕ
  percentage_of_total : ℚ
deriving DecidableEq

/-- The parts of the `analyze_rates_kmeans` result the claims read.
`summary`/`parameters` echoes are not modelled.  `error` is `true` exactly
when the Python result carries the `"error"` key. -/
structure KMeansAnalysis where
  total_transactions : ℕ
  valid_transactions : ℕ
  num_clusters : ℕ
  clusters : List KMeansClusterInfo
  error : Bool
deriving DecidableEq

/-- `kmeans_algorithm.analyze_rates_kmeans`.  The k-means branch (taken
only when the valid count reaches `min_cluster_size`) z-score normalizes
the data — a division by a standard deviation, i.e. by a square root —
and draws initial centroids from NumPy's seeded Mersenne-Twister PRNG;
neither is expressible in exact rational arithmetic, so that branch is a
parameter `clusterPath` and the theorems below hold for every
instantiation of it.  (`n_clusters`/`max_clusters` are consumed only
inside that branch.) -/
def analyze_rates_kmeans (clusterPath : List (ℚ × ℚ) → ℕ → KMeansAnalysis)
    (pairs : List (ℚ × ℚ)) (min_cluster_size : ℕ) : KMeansAnalysis :=
  let total := pairs.length
  let valid := pairs.filter (fun p => decide (0 < p.1))
  if valid.length = 0 then
    { total_transactions := total, valid_transactions := 0, num_clusters := 0,
      clusters := [], error := true }
  else if valid.length < min_cluster_size then
    let rf := fit_linear_model valid
    { total_transactions := total,
      valid_transactions := valid.length,
      num_clusters := 1,
      clusters := [{ cluster_id := 0,
                     rate_percent := pyRound 4 (rf.1 * 100),
                     minimal_fee := pyRound 4 rf.2,
                     transaction_count := valid.length,
                     percentage_of_total := 100 }],
      error := false }
  else clusterPath valid min_cluster_size

/- ## `field_detector.py` -/

/-- `FEE_COLUMN_PATTERNS`. -/
def feeColumnPatterns : List (String × List String) :=
  [("transaction_id", ["transaction_id", "id", "номер", "order_id", "tx_id", "transactionid"]),
   ("amount", ["amount", "сумма", "оборот", "transaction_amount", "amt", "sum", "total"]),
   ("commission",
    ["commission", "комиссия", "вознаграждение", "fee", "charge", "commission_eur",
     "processing_fee"]),
   ("rolling_reserve",
    ["rolling_reserve", "rr", "reserve", "резерв", "rolling_res", "rr_amount",
     "reservefund", "резервфонд"]),
   ("chargeback_fee", ["chargeback", "чарджбэк", "cb_fee", "chb", "chargeback_fee", "cb"]),
   ("refund_fee", ["refund", "возврат", "refund_fee", "ref", "refund_amount"]),
   ("chargeback_qty", ["chargeback_qty", "chb_qty", "chb_кол-во", "chargeback_quantity"]),
   ("chargeback_fee_collected",
    ["chargeback_fee_collected", "chb_fix_50_euro", "chb_fee_actual", "fix_50_euro"]),
   ("refund_qty", ["refund_qty", "refund_кол-во", "refund_quantity"]),
   ("refund_fee_collected",
    ["refund_fee_collected", "refund_fix_5_euro", "refund_fee_actual", "fix_5_euro"]),
   ("date", ["date", "дата", "created", "timestamp", "transaction_date", "created_at"]),
   ("status", ["status", "статус", "state", "transaction_status"])]

/-- Inner loop of one Wagner–Fischer row: walks the remaining characters
of the shorter string with `prevj = previous_row[j]`, `prevRest` the
previous row from position `j+1`, and `curj = current_row[j]`. -/
def levGo (c1 : Char) : List Char → ℕ → List ℕ → ℕ → List ℕ
  | [], _, _, _ => []
  | c2 :: s2, prevj, prevRest, curj =>
    let pj1 := prevRest.headD 0
    let v := min (min (pj1 + 1) (curj + 1)) (prevj + (if c1 = c2 then 0 else 1))
    v :: levGo c1 s2 pj1 prevRest.tail v

/-- One `for c1 in s1` iteration of `levenshtein_distance`: build
`current_row` from `previous_row`. -/
def levRow (c1 : Char) (prev : List ℕ) (s2 : List Char) : List ℕ :=
  let h := prev.headD 0
  (h + 1) :: levGo c1 s2 h prev.tail (h + 1)

/-- The row-by-row dynamic program of `levenshtein_distance` after the
argument swap. -/
def levCore (s1 s2 : List Char) : ℕ :=
  (s1.foldl (fun prev c1 => levRow c1 prev s2) (List.range (s2.length + 1))).getLastD 0

/-- `field_detector.levenshtein_distance`: ensure the first string is the
longer one, short-circuit the empty case, then run the dynamic program. -/
def levenshtein_distance (s1 s2 : List Char) : ℕ :=
  let a := if s1.length < s2.length then s2 else s1
  let b := if s1.length < s2.length then s1 else s2
  if b.length = 0 then a.length else levCore a b

/-- `needle in hay` — substring containment. -/
def subMatch (needle : List Char) : List Char → Bool
  | [] => needle.isEmpty
  | b :: t => begMatch needle (b :: t) || subMatch needle t

/-- Confidence constant `n/10`, written with `mkRat` so that the kernel
can evaluate comparisons on it (the generic scientific-literal instance
for `ℚ` does not reduce in the kernel); `tenth 9` is the Python literal
`0.9`, and so on. -/
def tenth (n : ℕ) : ℚ := mkRat n 10

/-- `field_detector.calculate_match_confidence`.  `str.lower` is modelled
by ASCII case folding (the Cyrillic pattern entries are already lower case
in the table, and the claims below never rely on non-ASCII case
folding). -/
def calculate_match_confidence (pattern column : String) : ℚ :=
  let p := trimChars (pattern.toList.map Char.toLower)
  let c := trimChars (column.toList.map Char.toLower)
  if p = c then 1
  else if begMatch p c then tenth 9
  else if begMatch p.reverse c.reverse then tenth 8
  else if subMatch p c then tenth 7
  else
    let d := levenshtein_distance p c
    if d ≤ 2 then tenth 6 else if d = 3 then tenth 5 else 0

/-- The `matches` list built for one field type: for each column (outer
loop) and each synonym pattern (inner loop), the pair
`(column, confidence)` whenever the confidence is positive.  Note a single
column appears once per pattern it matches. -/
def fieldMatches (patterns : List String) (columns : List String) : List (String × ℚ) :=
  columns.flatMap (fun col =>
    patterns.filterMap (fun pat =>
      let c := calculate_match_confidence pat col
      if 0 < c then some (col, c) else none))

/-- Per-field outcome of `detect_fee_columns`: the chosen column, its
confidence, and the ambiguity record (the list of high-confidence match
columns) if one is surfaced. -/
structure DetectedField where
  column : Option String
  confidence : ℚ
  ambiguity : Option (List String)
deriving DecidableEq

/-- The body of the `for field_type, patterns in FEE_COLUMN_PATTERNS`
loop: no match, a single match, or several matches sorted by descending
confidence (Python's stable in-place sort) with an ambiguity recorded when
at least two entries of the sorted `matches` list score `≥ 0.7`. -/
def detectField (patterns : List String) (columns : List String) : DetectedField :=
  match fieldMatches patterns columns with
  | [] => ⟨none, 0, none⟩
  | [m] => ⟨some m.1, m.2, none⟩
  | m1 :: m2 :: ms =>
    let sorted := sortByLe (fun a b => decide (b.2 ≤ a.2)) (m1 :: m2 :: ms)
    let best := sorted.headD ("", 0)
    let high := sorted.filter (fun m => decide (tenth 7 ≤ m.2))
    ⟨some best.1, best.2,
     if 2 ≤ high.length then some (high.map Prod.fst) else none⟩

/-- The four outputs of `detect_fee_columns`, keyed by field type.  The
ambiguity message string `"Multiple columns match '<field>': [...]"` is
modelled by the pair of the field type and the listed columns. -/
structure FieldDetection where
  detected_columns : List (String × Option String)
  confidence_scores : List (String × ℚ)
  ambiguities : List (String × List String)
  missing_fields : List String
deriving DecidableEq

/-- `field_detector.detect_fee_columns`.  The single Python loop fills the
four result dictionaries/lists field by field; the four traversals of the
same pattern table here produce the same per-field values in the same
order. -/
def detect_fee_columns (columns : List String) : FieldDetection :=
  { detected_columns :=
      feeColumnPatterns.map (fun ft => (ft.1, (detectField ft.2 columns).column)),
    confidence_scores :=
      feeColumnPatterns.map (fun ft => (ft.1, (detectField ft.2 columns).confidence)),
    ambiguities :=
      feeColumnPatterns.filterMap (fun ft =>
        (detectField ft.2 columns).ambiguity.map (fun cols => (ft.1, cols))),
    missing_fields :=
      feeColumnPatterns.filterMap (fun ft =>
        if (detectField ft.2 columns).column = none then some ft.1 else none) }

/- ## Auxiliary definitions used by the theorems -/

/-- Modelled from the spec's words ("a single linear least-squares fit
over all valid points"): the ordinary least-squares solution of
`commission = rate × amount + fee` by the closed-form normal equations,
before the non-negativity clamp on the fee.  Compared below with the
solution embedded in `fit_linear_model`. -/
def lstsqSol (pts : List (ℚ × ℚ)) : ℚ × ℚ :=
  let n : ℚ := pts.length
  let sa := (pts.map Prod.fst).sum
  let sc := (pts.map Prod.snd).sum
  let saa := (pts.map (fun p => p.1 * p.1)).sum
  let sac := (pts.map (fun p => p.1 * p.2)).sum
  let rate := (n * sac - sa * sc) / (n * saa - sa * sa)
  (rate, (sc - rate * sa) / n)

/-- The determinant of the 2×2 normal-equation system. -/
def dOf (pts : List (ℚ × ℚ)) : ℚ :=
  (pts.length : ℚ) * (pts.map (fun p => p.1 * p.1)).sum
    - (pts.map Prod.fst).sum * (pts.map Prod.fst).sum

/-- A rate in the claimed main band `[0.0379, 0.0381]`. -/
abbrev inLowBand (x : ℚ) : Prop := 0.0379 ≤ x ∧ x ≤ 0.0381

/-- A rate in the claimed outlier band `[0.05, ∞)`. -/
abbrev inHighBand (x : ℚ) : Prop := 0.05 ≤ x

/-- The ledger invariant of the rolling-reserve tracker: non-negative
holdings, the balance equal to the sum of the recorded holdings, and the
balance within the cap. -/
def trackerInv (t : RollingReserveTracker) : Prop :=
  (∀ h ∈ t.holdings, 0 ≤ h.2) ∧
  t.current_balance = (t.holdings.map Prod.snd).sum ∧
  t.current_balance ≤ t.cap

/-- A tracker call with non-negative amount and rate, supplying a date on
`calculate_rr`. -/
def goodStep : RRStep → Prop
  | .calcRR a r d => 0 ≤ a ∧ 0 ≤ r ∧ d ≠ none
  | .release _ => True

/-- A concrete instance of the C7 scenario: 95 rows at rate
`380/10000 = 0.038` and 5 rows at rate `500/10000 = 0.05`. -/
def c7pairs : List (ℚ × ℚ) :=
  List.replicate 95 (10000, 380) ++ List.replicate 5 (10000, 500)

/- ## Rounding lemmas -/

theorem quantize2_nonneg (q : ℚ) (h : 0 ≤ q) : 0 ≤ quantize2 q := by
  unfold quantize2 roundHalfAway
  rw [if_pos (by positivity : (0:ℚ) ≤ q * 100)]
  have h2 : (0 : ℤ) ≤ ⌊q * 100 + 1/2⌋ := by positivity
  positivity

/- ## C6 — remuneration is the exact half-up rounding of amount × rate -/

/-- C6: for non-negative exact decimals, the remuneration fee is
`amount × rate` rounded half-up to 2 decimal places (characterized by the
floor formula `⌊100·amount·rate + 1/2⌋ / 100`); in particular
`amount = 1000`, `rate = 0.038` gives exactly `38.00`, and — the
computation being a pure function of its arguments — every one of 10,000
repeated calls returns that same value, with no drift. -/
theorem c6_remuneration_half_up (amount rate : ℚ) (h1 : 0 ≤ amount) (h2 : 0 ≤ rate) :
    (calculate_remuneration amount rate).fee = (⌊amount * rate * 100 + 1/2⌋ : ℚ) / 100 ∧
    (calculate_remuneration 1000 0.038).fee = 38 ∧
    ∀ x ∈ List.replicate 10000 (calculate_remuneration 1000 0.038).fee, x = 38 := by
  have hconc : (calculate_remuneration 1000 0.038).fee = 38 := by
    norm_num [calculate_remuneration, quantize2, roundHalfAway]
  refine ⟨?_, hconc, fun x hx => (List.eq_of_mem_replicate hx).trans hconc⟩
  show quantize2 (amount * rate) = _
  unfold quantize2 roundHalfAway
  rw [if_pos (by positivity : (0:ℚ) ≤ amount * rate * 100)]

/-- Witness for C6 at `amount = 1000`, `rate = 0.038`. -/
theorem c6_remuneration_half_up_witness :
    (0:ℚ) ≤ 1000 ∧ (0:ℚ) ≤ 0.038 ∧ (calculate_remuneration 1000 0.038).fee = 38 :=
  ⟨by norm_num, by norm_num,
   (c6_remuneration_half_up 1000 0.038 (by norm_num) (by norm_num)).2.1⟩

/- ## C3 — the case analysis of `compare_fees` -/

/-- C3: `compare_fees` returns `MISSING` exactly on a missing actual
value; otherwise `CORRECT` when `|actual - expected| ≤ tolerance`,
`OVERCHARGED` when `actual - expected > tolerance`, and `UNDERCHARGED` in
the remaining case — and in particular
`compare_fees(100.00, 100.01, 0.01) = CORRECT`,
`compare_fees(100.00, 100.02, 0.01) = UNDERCHARGED`,
`compare_fees(None, 50.00, 0.01) = MISSING`. -/
theorem c3_compare_fees_cases (actual : Option ℚ) (expected tolerance : ℚ) :
    ((compare_fees actual expected tolerance).status = .MISSING ↔ actual = none) ∧
    ((compare_fees actual expected tolerance).status = .CORRECT ↔
      ∃ a, actual = some a ∧ |a - expected| ≤ tolerance) ∧
    ((compare_fees actual expected tolerance).status = .OVERCHARGED ↔
      ∃ a, actual = some a ∧ tolerance < a - expected) ∧
    ((compare_fees actual expected tolerance).status = .UNDERCHARGED ↔
      ∃ a, actual = some a ∧ ¬|a - expected| ≤ tolerance ∧ ¬tolerance < a - expected) ∧
    (compare_fees (some 100) 100.01 0.01).status = .CORRECT ∧
    (compare_fees (some 100) 100.02 0.01).status = .UNDERCHARGED ∧
    (compare_fees none 50 0.01).status = .MISSING := by
  refine ⟨?_, ?_, ?_, ?_, ?_, ?_, ?_⟩
  · cases actual with
    | none => simp [compare_fees]
    | some a =>
      simp only [compare_fees]
      split_ifs <;> simp
  · cases actual with
    | none => simp [compare_fees]
    | some a =>
      simp only [compare_fees]
      split_ifs with hc ho <;> simp_all
  · cases actual with
    | none => simp [compare_fees]
    | some a =>
      simp only [compare_fees]
      split_ifs with hc ho <;> simp_all <;>
        linarith [le_abs_self (a - expected)]
  · cases actual with
    | none => simp [compare_fees]
    | some a =>
      simp only [compare_fees]
      split_ifs with hc ho <;> simp_all <;>
        linarith [le_abs_self (a - expected)]
  · norm_num [compare_fees, abs_neg, abs_of_nonneg]
  · norm_num [compare_fees, abs_neg, abs_of_nonneg]
  · rfl

/- ## C4 — `release_expired` with nothing to release -/

/-- C4 (code-bug evidence): when no holding qualifies for release,
`release_expired` does not return the zero amount — the Python `sum` over
the empty selection is the integer `0`, and `0.quantize(...)` raises
`AttributeError`, modelled by the `none` return value; the state is
nevertheless already mutated (balance unchanged, holdings unchanged).
The last conjunct documents the boundary: a holding dated exactly
`holding_days` before the current date is released (`<=` in the source),
not only those strictly older. -/
theorem c4_release_expired_empty_crashes :
    (release_expired (initTracker 37500 180) 0).2 = none ∧
    (release_expired (initTracker 37500 180) 0).1.current_balance = 0 ∧
    (release_expired (initTracker 37500 180) 0).1.holdings = [] ∧
    (release_expired { cap := 37500, holding_days := 180, current_balance := 10,
                       holdings := [(0, 10)] } 180).1.holdings = [] := by
  refine ⟨rfl, by norm_num [release_expired, initTracker], rfl, ?_⟩
  norm_num [release_expired]

/- ## C5 — degradation when the amount is absent or unparseable -/

/-- C5 counterexample: with the detected amount column present in the row
but holding an unparseable value, `calculate_expected_fees` reports
`missing_data = ["amount (invalid value)"]` — not `["amount"]` as the
claim states. -/
theorem c5_counterexample :
    (calculate_expected_fees [("amt", PyValue.vstr "abc")]
        ⟨0.038, 50, 5, 0.1, 180, 37500⟩
        ⟨none, some "amt", none, none, none, none, none, none, none, none⟩
        ⟨0, 0, 0, 0, 0, 0⟩).missing_data = ["amount (invalid value)"] ∧
    ("amount (invalid value)" : String) ≠ "amount" := by
  constructor
  · decide
  · decide

/-- C5 (amended): when the detected amount column is absent from the row
(or no amount column was detected) every fee degrades to `0.00` with
`missing_data = ["amount"]`; when the column is present but its value
cannot be parsed as a decimal, every fee degrades to `0.00` with
`missing_data = ["amount (invalid value)"]`.  No exception in either
case. -/
theorem c5_amount_degrades (tx : Transaction) (contract : DintaresContract)
    (detected : DetectedColumns) (conf : ConfidenceScores) (col : String) (v : PyValue)
    (h1 : detected.amount = some col)
    (h2 : txGet tx col = some v)
    (h3 : parse_decimal (some v) = none) :
    calculate_expected_fees tx contract detected conf
        = ⟨0, 0, 0, 0, ["amount (invalid value)"]⟩ ∧
    (∀ (tx2 : Transaction) (detected2 : DetectedColumns), detected2.amount = none →
      calculate_expected_fees tx2 contract detected2 conf = ⟨0, 0, 0, 0, ["amount"]⟩) ∧
    (∀ (tx2 : Transaction) (detected2 : DetectedColumns) (col2 : String),
      detected2.amount = some col2 → txGet tx2 col2 = none →
      calculate_expected_fees tx2 contract detected2 conf = ⟨0, 0, 0, 0, ["amount"]⟩) := by
  refine ⟨?_, ?_, ?_⟩
  · simp [calculate_expected_fees, h1, h2, h3]
  · intro tx2 det2 h
    simp [calculate_expected_fees, h]
  · intro tx2 det2 col2 ha hb
    simp [calculate_expected_fees, ha, hb]

/-- Witness for C5 at a concrete transaction with an unparseable amount
cell. -/
theorem c5_amount_degrades_witness :
    txGet [("amt", PyValue.vstr "xyz")] "amt" = some (.vstr "xyz") ∧
    parse_decimal (some (.vstr "xyz")) = none ∧
    (calculate_expected_fees [("amt", PyValue.vstr "xyz")] ⟨0.038, 50, 5, 0.1, 180, 37500⟩
        ⟨none, some "amt", none, none, none, none, none, none, none, none⟩
        ⟨0, 0, 0, 0, 0, 0⟩).missing_data = ["amount (invalid value)"] :=
  ⟨by decide, by decide,
   by rw [(c5_amount_degrades _ _ _ _ "amt" (.vstr "xyz") rfl (by decide) (by decide)).1]⟩

/- ## C1 — the overall status classification of `verify_transaction_fees` -/

/-- C1 counterexample: a verification with one discrepancy and confidence
`0.68` — in particular `≥ 0.5`, where the claim requires `HAS_ERRORS` — is
classified `QUESTIONABLE` by the code, whose threshold is `0.7`, not
`0.5`. -/
theorem c1_counterexample :
    (verify_transaction_fees
        [("comm", PyValue.vnum 10), ("rr", PyValue.vnum 0)]
        ⟨some 5, some 0, none, none⟩
        ⟨none, none, some "comm", some "rr", none, none, none, none, none, none⟩
        ⟨0, 0.7, 0.7, 0.7, 0, 0⟩ 0.01).error_count = 1 ∧
    (verify_transaction_fees
        [("comm", PyValue.vnum 10), ("rr", PyValue.vnum 0)]
        ⟨some 5, some 0, none, none⟩
        ⟨none, none, some "comm", some "rr", none, none, none, none, none, none⟩
        ⟨0, 0.7, 0.7, 0.7, 0, 0⟩ 0.01).confidence = 0.68 ∧
    (0.5 : ℚ) ≤ 0.68 ∧
    (verify_transaction_fees
        [("comm", PyValue.vnum 10), ("rr", PyValue.vnum 0)]
        ⟨some 5, some 0, none, none⟩
        ⟨none, none, some "comm", some "rr", none, none, none, none, none, none⟩
        ⟨0, 0.7, 0.7, 0.7, 0, 0⟩ 0.01).overall_status = .QUESTIONABLE := by
  have e1 : txGet [("comm", PyValue.vnum 10), ("rr", PyValue.vnum 0)] "comm"
      = some (PyValue.vnum 10) := by decide
  have e2 : txGet [("comm", PyValue.vnum 10), ("rr", PyValue.vnum 0)] "rr"
      = some (PyValue.vnum 0) := by decide
  have hc1 : compare_fees (some 10) 5 0.01
      = ⟨.OVERCHARGED, some 5, some (quantize2 100), false⟩ := by
    norm_num [compare_fees]
  have hc2 : compare_fees (some 0) 0 0.01 = ⟨.CORRECT, some 0, some 0, true⟩ := by
    norm_num [compare_fees]
  have hf1 : feeError ⟨.OVERCHARGED, some 5, some (quantize2 100), false⟩ = 1 := by decide
  have hf2 : feeError ⟨.CORRECT, some 0, some 0, true⟩ = 0 := by decide
  have hcb : chargebackPart [("comm", PyValue.vnum 10), ("rr", PyValue.vnum 0)]
      ⟨none, none, some "comm", some "rr", none, none, none, none, none, none⟩
      ⟨some 5, some 0, none, none⟩ 0.01 = (none, 0, []) := by
    norm_num [chargebackPart]
  have hrf : refundPart [("comm", PyValue.vnum 10), ("rr", PyValue.vnum 0)]
      ⟨none, none, some "comm", some "rr", none, none, none, none, none, none⟩
      ⟨some 5, some 0, none, none⟩ 0.01 = (none, 0, []) := by
    norm_num [refundPart]
  refine ⟨?_, ?_, by norm_num, ?_⟩ <;>
    simp only [verify_transaction_fees, e1, e2, parse_decimal, Option.getD,
      hc1, hc2, hcb, hrf, hf1, hf2, Nat.add_zero, List.append_nil, List.nil_append,
      List.length_nil, overallStatusOf] <;>
    norm_num [calculate_verification_confidence, pyRound, roundHalfEven]

/-- C1 (amended): the `Correct` check takes precedence (zero
errors ↔ `CORRECT`), and for a nonzero error count the
`QUESTIONABLE`/`HAS_ERRORS` split is made exactly at confidence `0.7`
(not `0.5`): below it `QUESTIONABLE`, at or above it `HAS_ERRORS`. -/
theorem c1_overall_status_rule (tx : Transaction) (expected : ExpectedFees)
    (detected : DetectedColumns) (conf : ConfidenceScores) (tolerance : ℚ) :
    ((verify_transaction_fees tx expected detected conf tolerance).overall_status = .CORRECT
        ↔ (verify_transaction_fees tx expected detected conf tolerance).error_count = 0) ∧
    ((verify_transaction_fees tx expected detected conf tolerance).overall_status = .QUESTIONABLE
        ↔ (verify_transaction_fees tx expected detected conf tolerance).error_count ≠ 0 ∧
          (verify_transaction_fees tx expected detected conf tolerance).confidence < 0.7) ∧
    ((verify_transaction_fees tx expected detected conf tolerance).overall_status = .HAS_ERRORS
        ↔ (verify_transaction_fees tx expected detected conf tolerance).error_count ≠ 0 ∧
          0.7 ≤ (verify_transaction_fees tx expected detected conf tolerance).confidence) := by
  have h : (verify_transaction_fees tx expected detected conf tolerance).overall_status
      = overallStatusOf (verify_transaction_fees tx expected detected conf tolerance).error_count
          (verify_transaction_fees tx expected detected conf tolerance).confidence := rfl
  rw [h]
  generalize (verify_transaction_fees tx expected detected conf tolerance).error_count = n
  generalize (verify_transaction_fees tx expected detected conf tolerance).confidence = c
  unfold overallStatusOf
  split_ifs with h1 h2 <;> simp_all

/- ## C2 — rolling-reserve tracker invariants -/

theorem sum_filter_split (l : List (ℤ × ℚ)) (rd : ℤ) :
    ((l.filter (fun h => decide (h.1 ≤ rd))).map Prod.snd).sum
      + ((l.filter (fun h => decide (rd < h.1))).map Prod.snd).sum
      = (l.map Prod.snd).sum := by
  induction l with
  | nil => simp
  | cons a t ih =>
    by_cases hle : a.1 ≤ rd
    · simp [List.filter_cons, hle, not_lt.mpr hle]
      linarith
    · simp [List.filter_cons, hle, not_le.mp hle]
      linarith

theorem calc_preserves_inv (t : RollingReserveTracker) (a r : ℚ) (d : ℤ)
    (hInv : trackerInv t) (ha : 0 ≤ a) (hr : 0 ≤ r) :
    trackerInv (calculate_rr t a r (some d)).1 ∧ (calculate_rr t a r (some d)).1.cap = t.cap := by
  obtain ⟨hpos, hsum, hcap⟩ := hInv
  have hrr : 0 ≤ quantize2 (a * r) := quantize2_nonneg _ (mul_nonneg ha hr)
  unfold calculate_rr trackerInv
  by_cases hc : t.cap < t.current_balance + quantize2 (a * r)
  · simp only [if_pos hc]
    refine ⟨⟨?_, ?_, ?_⟩, ?_⟩
    · intro h hmem
      rcases List.mem_append.mp hmem with hm | hm
      · exact hpos h hm
      · simp at hm
        subst hm
        simp
        linarith
    · simp [List.map_append, List.sum_append, hsum]
    · simp
    · trivial
  · simp only [if_neg hc]
    refine ⟨⟨?_, ?_, ?_⟩, ?_⟩
    · intro h hmem
      rcases List.mem_append.mp hmem with hm | hm
      · exact hpos h hm
      · simp at hm
        subst hm
        simpa using hrr
    · simp [List.map_append, List.sum_append, hsum]
    · have := not_lt.mp hc
      linarith
    · trivial

theorem release_preserves_inv (t : RollingReserveTracker) (cd : ℤ)
    (hInv : trackerInv t) :
    trackerInv (release_expired t cd).1 ∧ (release_expired t cd).1.cap = t.cap := by
  obtain ⟨hpos, hsum, hcap⟩ := hInv
  have hsplit := sum_filter_split t.holdings (cd - t.holding_days)
  have hrel : 0 ≤ ((t.holdings.filter
      (fun h => decide (h.1 ≤ cd - t.holding_days))).map Prod.snd).sum := by
    apply List.sum_nonneg
    intro x hx
    rcases List.mem_map.mp hx with ⟨h, hh, rfl⟩
    exact hpos h (List.mem_of_mem_filter hh)
  unfold release_expired trackerInv
  refine ⟨⟨?_, ?_, ?_⟩, rfl⟩
  · intro h hmem
    exact hpos h (List.mem_of_mem_filter hmem)
  · simp only
    rw [hsum]
    linarith
  · simp only
    linarith

theorem runSteps_inv (steps : List RRStep) : ∀ t : RollingReserveTracker, trackerInv t →
    (∀ s ∈ steps, goodStep s) →
    trackerInv (runSteps t steps) ∧ (runSteps t steps).cap = t.cap := by
  induction steps with
  | nil => exact fun t h _ => ⟨h, rfl⟩
  | cons s rest ih =>
    intro t hInv hgood
    have hs : goodStep s := hgood s (List.mem_cons_self s rest)
    have hrest : ∀ x ∈ rest, goodStep x := fun x hx => hgood x (List.mem_cons_of_mem s hx)
    cases s with
    | calcRR a r d =>
      obtain ⟨ha, hr, hd⟩ := hs
      obtain ⟨d', rfl⟩ := Option.ne_none_iff_exists'.mp hd
      obtain ⟨h1, h2⟩ := calc_preserves_inv t a r d' hInv ha hr
      obtain ⟨h3, h4⟩ := ih _ h1 hrest
      exact ⟨h3, by rw [runSteps]; rw [h4, h2]⟩
    | release cd =>
      obtain ⟨h1, h2⟩ := release_preserves_inv t cd hInv
      obtain ⟨h3, h4⟩ := ih _ h1 hrest
      exact ⟨h3, by rw [runSteps]; rw [h4, h2]⟩

/-- C2 (amended): for every sequence of `calculate_rr` calls with
non-negative amounts and rates **that supply a date** interleaved with
`release_expired` calls on a tracker with non-negative cap,
`current_balance` never exceeds `cap` and always equals the sum of the
holdings recorded in the holdings list (every recorded holding being
non-expired, since `release_expired` removes the released ones).  The
date restriction is forced by the counterexample `c2_counterexample`:
a date-less `calculate_rr` call increases the balance without recording
a holding. -/
theorem c2_tracker_invariant (cap : ℚ) (hd : ℤ) (steps : List RRStep)
    (hcap : 0 ≤ cap) (hsteps : ∀ s ∈ steps, goodStep s) :
    (runSteps (initTracker cap hd) steps).current_balance ≤ cap ∧
    (runSteps (initTracker cap hd) steps).current_balance
      = ((runSteps (initTracker cap hd) steps).holdings.map Prod.snd).sum := by
  have h0 : trackerInv (initTracker cap hd) :=
    ⟨by simp [initTracker], by simp [initTracker], by simpa [initTracker] using hcap⟩
  obtain ⟨⟨_, hsum, hle⟩, hcapEq⟩ := runSteps_inv steps _ h0 hsteps
  refine ⟨?_, hsum⟩
  rw [hcapEq] at hle
  simpa [initTracker] using hle

/-- Witness for C2 on a concrete two-call sequence. -/
theorem c2_tracker_invariant_witness :
    (0:ℚ) ≤ 37500 ∧
    (runSteps (initTracker 37500 180) [RRStep.calcRR 100 0.1 (some 0), RRStep.release 200]).current_balance ≤ 37500 ∧
    (runSteps (initTracker 37500 180) [RRStep.calcRR 100 0.1 (some 0), RRStep.release 200]).current_balance
      = ((runSteps (initTracker 37500 180) [RRStep.calcRR 100 0.1 (some 0), RRStep.release 200]).holdings.map Prod.snd).sum := by
  refine ⟨by norm_num, ?_, ?_⟩ <;>
  · have h := c2_tracker_invariant 37500 180
      [RRStep.calcRR 100 0.1 (some 0), RRStep.release 200] (by norm_num) ?_
    · first
      | exact h.1
      | exact h.2
    · intro s hs
      rcases List.mem_cons.mp hs with rfl | hs2
      · exact ⟨by norm_num, by norm_num, by simp⟩
      · rcases List.mem_cons.mp hs2 with rfl | h2
        · trivial
        · exact absurd h2 (List.not_mem_nil s)

/-- C2 counterexample: `calculate_rr(amount=100, rate=0.1)` without a
date (the Python default `date=None`) leaves the balance at `10` while
the holdings list stays empty, so `current_balance` differs from the sum
of recorded holdings. -/
theorem c2_counterexample :
    (runSteps (initTracker 37500 180) [RRStep.calcRR 100 0.1 none]).current_balance = 10 ∧
    ((runSteps (initTracker 37500 180) [RRStep.calcRR 100 0.1 none]).holdings.map Prod.snd).sum = 0 ∧
    (10:ℚ) ≠ 0 := by
  refine ⟨?_, ?_, by norm_num⟩
  · norm_num [runSteps, calculate_rr, initTracker, quantize2, roundHalfAway]
  · simp [runSteps, calculate_rr, initTracker]

/- ## C10 — ambiguity recording in `detect_fee_columns` -/

theorem insertLe_perm {α : Type} (le : α → α → Bool) (a : α) (l : List α) :
    (insertLe le a l).Perm (a :: l) := by
  induction l with
  | nil => simp [insertLe]
  | cons b t ih =>
    unfold insertLe
    by_cases h : le a b
    · simp [h]
    · simp only [h, if_false, Bool.false_eq_true]
      exact ((ih.cons b).trans (List.Perm.swap a b t))

theorem sortByLe_perm {α : Type} (le : α → α → Bool) (l : List α) :
    (sortByLe le l).Perm l := by
  induction l with
  | nil => simp [sortByLe]
  | cons a t ih =>
    unfold sortByLe
    exact (insertLe_perm le a (sortByLe le t)).trans (ih.cons a)

theorem keyUnique {α β : Type} [DecidableEq α] (l : List (α × β))
    (h : (l.map Prod.fst).Nodup) {a : α} {b1 b2 : β}
    (h1 : (a, b1) ∈ l) (h2 : (a, b2) ∈ l) : b1 = b2 := by
  induction l with
  | nil => cases h1
  | cons x t ih =>
    simp only [List.map_cons, List.nodup_cons] at h
    rcases List.mem_cons.mp h1 with e1 | m1
    · rcases List.mem_cons.mp h2 with e2 | m2
      · exact congrArg Prod.snd (e1.trans e2.symm)
      · exfalso
        apply h.1
        have : a = x.1 := congrArg Prod.fst e1
        rw [← this]
        exact List.mem_map.mpr ⟨(a, b2), m2, rfl⟩
    · rcases List.mem_cons.mp h2 with e2 | m2
      · exfalso
        apply h.1
        have : a = x.1 := congrArg Prod.fst e2
        rw [← this]
        exact List.mem_map.mpr ⟨(a, b1), m1, rfl⟩
      · exact ih h.2 m1 m2

theorem detectField_ambiguity_iff (patterns columns : List String) :
    (detectField patterns columns).ambiguity ≠ none ↔
      2 ≤ (fieldMatches patterns columns).countP (fun m => decide (tenth 7 ≤ m.2)) := by
  unfold detectField
  cases h : fieldMatches patterns columns with
  | nil => simp
  | cons m1 rest =>
    cases rest with
    | nil =>
      have hle := List.countP_le_length (fun m => decide (tenth 7 ≤ m.2)) (l := [m1])
      simp at hle ⊢
      omega
    | cons m2 ms =>
      have hperm := sortByLe_perm (fun a b : String × ℚ => decide (b.2 ≤ a.2)) (m1 :: m2 :: ms)
      have hcount := hperm.countP_eq (fun m => decide (tenth 7 ≤ m.2))
      have hfl : ((sortByLe (fun a b : String × ℚ => decide (b.2 ≤ a.2)) (m1 :: m2 :: ms)).filter
          (fun m => decide (tenth 7 ≤ m.2))).length
          = (m1 :: m2 :: ms).countP (fun m => decide (tenth 7 ≤ m.2)) := by
        rw [← hcount, List.countP_eq_length_filter]
      simp only
      split_ifs with h2
      · simp only [ne_eq, reduceCtorEq, not_false_eq_true, true_iff]
        rw [hfl] at h2
        exact h2
      · simp only [ne_eq, not_not, not_true_eq_false, false_iff, not_le]
        rw [hfl] at h2
        omega

/-- C10 (amended): `detect_fee_columns` records an ambiguity for a field
exactly when two or more of its `(column, pattern)` match pairs score
`≥ 0.7` — a single column matched by several synonym patterns counts once
per pattern, so it alone can trigger the ambiguity (see
`c10_counterexample`). -/
theorem c10_ambiguity_rule (columns : List String) (field : String) (patterns : List String)
    (hmem : (field, patterns) ∈ feeColumnPatterns) :
    (∃ cols, (field, cols) ∈ (detect_fee_columns columns).ambiguities) ↔
      2 ≤ (fieldMatches patterns columns).countP (fun m => decide ((0.7:ℚ) ≤ m.2)) := by
  have hkey : (feeColumnPatterns.map Prod.fst).Nodup := by decide
  have hseven : (0.7 : ℚ) = tenth 7 := by
    rw [tenth, Rat.mkRat_eq_div]
    norm_num
  have hcong : ∀ l : List (String × ℚ),
      l.countP (fun m => decide ((0.7:ℚ) ≤ m.2)) = l.countP (fun m => decide (tenth 7 ≤ m.2)) := by
    intro l
    apply List.countP_congr
    intro m _
    rw [hseven]
  rw [hcong]
  constructor
  · rintro ⟨cols, hc⟩
    simp only [detect_fee_columns, List.mem_filterMap] at hc
    obtain ⟨ft, hft, hmap⟩ := hc
    rw [Option.map_eq_some'] at hmap
    obtain ⟨y, hy, hxy⟩ := hmap
    have hf1 : ft.1 = field := congrArg Prod.fst hxy
    have hpat : ft.2 = patterns := by
      apply keyUnique feeColumnPatterns hkey (a := field)
      · rw [← hf1]
        exact (Prod.mk.eta (p := ft)) ▸ hft
      · exact hmem
    rw [← (detectField_ambiguity_iff patterns columns)]
    rw [← hpat]
    rw [hy]
    simp
  · intro h2
    have hne := (detectField_ambiguity_iff patterns columns).mpr h2
    obtain ⟨cols, hcols⟩ := Option.ne_none_iff_exists'.mp hne
    refine ⟨cols, ?_⟩
    simp only [detect_fee_columns, List.mem_filterMap]
    exact ⟨(field, patterns), hmem, by rw [hcols]; rfl⟩

set_option maxRecDepth 100000 in
/-- C10 counterexample: with the single column `processing_fee`, the
`commission` field matches it via both the `fee` and the `processing_fee`
synonym patterns (scores `0.8` and `1.0`), and an ambiguity is recorded
even though only one distinct column matches. -/
theorem c10_counterexample :
    (detect_fee_columns ["processing_fee"]).ambiguities
      = [("commission", ["processing_fee", "processing_fee"])] := by decide

set_option maxRecDepth 100000 in
/-- Witness for C10 at the `commission` row of the pattern table and the
single-column input. -/
theorem c10_ambiguity_rule_witness :
    ("commission",
      ["commission", "комиссия", "вознаграждение", "fee", "charge", "commission_eur",
       "processing_fee"]) ∈ feeColumnPatterns ∧
    ((∃ cols, ("commission", cols) ∈ (detect_fee_columns ["processing_fee"]).ambiguities) ↔
      2 ≤ (fieldMatches
            ["commission", "комиссия", "вознаграждение", "fee", "charge", "commission_eur",
             "processing_fee"]
            ["processing_fee"]).countP (fun m => decide ((0.7:ℚ) ≤ m.2))) :=
  ⟨by decide, c10_ambiguity_rule _ _ _ (by decide)⟩

/- ## C9 — the small-sample fallback of `analyze_rates_kmeans` -/

theorem sumMapAdd {α : Type} (l : List α) (f g : α → ℚ) :
    (l.map (fun x => f x + g x)).sum = (l.map f).sum + (l.map g).sum := by
  induction l with
  | nil => simp
  | cons a t ih => simp [ih]; ring

theorem sumMapMul {α : Type} (c : ℚ) (l : List α) (f : α → ℚ) :
    (l.map (fun x => c * f x)).sum = c * (l.map f).sum := by
  induction l with
  | nil => simp
  | cons a t ih => simp [ih]; ring

theorem sumMapConst {α : Type} (l : List α) (c : ℚ) :
    (l.map (fun _ => c)).sum = l.length * c := by
  induction l with
  | nil => simp
  | cons a t ih => simp [ih]; ring

theorem residualSum (pts : List (ℚ × ℚ)) (r f : ℚ) :
    (pts.map (fun p => p.2 - r * p.1 - f)).sum
      = (pts.map Prod.snd).sum - r * (pts.map Prod.fst).sum - (pts.length : ℚ) * f := by
  have h1 : (pts.map (fun p => p.2 - r * p.1 - f)).sum
      = (pts.map (fun p => p.2 + ((-r) * p.1 + (-1 : ℚ) * f))).sum := by
    congr 1
    apply List.map_congr_left
    intro p _
    ring
  rw [h1, sumMapAdd pts (fun p => p.2) (fun p => (-r) * p.1 + (-1 : ℚ) * f),
    sumMapAdd pts (fun p => (-r) * p.1) (fun _ => (-1 : ℚ) * f),
    sumMapMul (-r) pts (fun p => p.1), sumMapConst]
  ring

theorem residualSumWeighted (pts : List (ℚ × ℚ)) (r f : ℚ) :
    (pts.map (fun p => p.1 * (p.2 - r * p.1 - f))).sum
      = (pts.map (fun p => p.1 * p.2)).sum - r * (pts.map (fun p => p.1 * p.1)).sum
        - f * (pts.map Prod.fst).sum := by
  have h1 : (pts.map (fun p => p.1 * (p.2 - r * p.1 - f))).sum
      = (pts.map (fun p => p.1 * p.2 + ((-r) * (p.1 * p.1) + (-f) * p.1))).sum := by
    congr 1
    apply List.map_congr_left
    intro p _
    ring
  rw [h1, sumMapAdd pts (fun p => p.1 * p.2) (fun p => (-r) * (p.1 * p.1) + (-f) * p.1),
    sumMapAdd pts (fun p => (-r) * (p.1 * p.1)) (fun p => (-f) * p.1),
    sumMapMul (-r) pts (fun p => p.1 * p.1), sumMapMul (-f) pts (fun p => p.1)]
  ring

theorem lstsq_normal_eqs (pts : List (ℚ × ℚ)) (hn : (pts.length : ℚ) ≠ 0)
    (hd : dOf pts ≠ 0) :
    (pts.map (fun p => p.2 - (lstsqSol pts).1 * p.1 - (lstsqSol pts).2)).sum = 0 ∧
    (pts.map (fun p => p.1 * (p.2 - (lstsqSol pts).1 * p.1 - (lstsqSol pts).2))).sum = 0 := by
  have hr : (lstsqSol pts).1
      = ((pts.length : ℚ) * (pts.map (fun p => p.1 * p.2)).sum
          - (pts.map Prod.fst).sum * (pts.map Prod.snd).sum)
        / ((pts.length : ℚ) * (pts.map (fun p => p.1 * p.1)).sum
          - (pts.map Prod.fst).sum * (pts.map Prod.fst).sum) := rfl
  have hf : (lstsqSol pts).2
      = ((pts.map Prod.snd).sum - (lstsqSol pts).1 * (pts.map Prod.fst).sum)
        / (pts.length : ℚ) := rfl
  have hdd : (pts.length : ℚ) * (pts.map (fun p => p.1 * p.1)).sum
      - (pts.map Prod.fst).sum * (pts.map Prod.fst).sum ≠ 0 := hd
  constructor
  · rw [residualSum, hf]
    field_simp
  · rw [residualSumWeighted, hf, hr]
    field_simp
    ring

theorem lstsq_optimal (pts : List (ℚ × ℚ)) (hn : (pts.length : ℚ) ≠ 0)
    (hd : dOf pts ≠ 0) (rf : ℚ × ℚ) :
    ssrOf pts (lstsqSol pts) ≤ ssrOf pts rf := by
  obtain ⟨he, hea⟩ := lstsq_normal_eqs pts hn hd
  set r := (lstsqSol pts).1 with hr
  set f := (lstsqSol pts).2 with hf
  have hdecomp : ssrOf pts rf
      = ssrOf pts (r, f)
        + (pts.map (fun p => ((rf.1 - r) * p.1 + (rf.2 - f)) ^ 2)).sum
        + (-2 * (rf.1 - r)) * (pts.map (fun p => p.1 * (p.2 - r * p.1 - f))).sum
        + (-2 * (rf.2 - f)) * (pts.map (fun p => p.2 - r * p.1 - f)).sum := by
    unfold ssrOf
    rw [← sumMapMul (-2 * (rf.1 - r)) pts (fun p => p.1 * (p.2 - r * p.1 - f)),
      ← sumMapMul (-2 * (rf.2 - f)) pts (fun p => p.2 - r * p.1 - f),
      ← sumMapAdd pts
        (fun p => (p.2 - (r * p.1 + f)) ^ 2)
        (fun p => ((rf.1 - r) * p.1 + (rf.2 - f)) ^ 2),
      ← sumMapAdd pts
        (fun p => (p.2 - (r * p.1 + f)) ^ 2 + ((rf.1 - r) * p.1 + (rf.2 - f)) ^ 2)
        (fun p => -2 * (rf.1 - r) * (p.1 * (p.2 - r * p.1 - f))),
      ← sumMapAdd pts
        (fun p => (p.2 - (r * p.1 + f)) ^ 2 + ((rf.1 - r) * p.1 + (rf.2 - f)) ^ 2
          + -2 * (rf.1 - r) * (p.1 * (p.2 - r * p.1 - f)))
        (fun p => -2 * (rf.2 - f) * (p.2 - r * p.1 - f))]
    congr 1
    apply List.map_congr_left
    intro p _
    ring
  have hsq : 0 ≤ (pts.map (fun p => ((rf.1 - r) * p.1 + (rf.2 - f)) ^ 2)).sum := by
    apply List.sum_nonneg
    intro x hx
    rcases List.mem_map.mp hx with ⟨p, _, rfl⟩
    positivity
  rw [hdecomp, hea, he]
  have : ssrOf pts (r, f) = ssrOf pts (lstsqSol pts) := by
    rw [hr, hf]
  nlinarith [hsq]

theorem fit_eq_lstsq (pts : List (ℚ × ℚ)) (h2 : 2 ≤ pts.length) (hd : dOf pts ≠ 0) :
    fit_linear_model pts = ((lstsqSol pts).1, max 0 (lstsqSol pts).2) := by
  match pts, h2 with
  | a :: b :: rest, _ =>
    have hdd : ((a :: b :: rest).length : ℚ) * ((a :: b :: rest).map (fun p => p.1 * p.1)).sum
        - ((a :: b :: rest).map Prod.fst).sum * ((a :: b :: rest).map Prod.fst).sum ≠ 0 := hd
    unfold fit_linear_model
    simp only [if_pos hdd]
    rfl

/-- C9: when the count of valid rows (positive amount) is non-zero but
below `min_cluster_size`, `analyze_rates_kmeans` never invokes the k-means
branch (the result is the same for every instantiation of it): it returns
exactly one cluster covering 100% of the valid rows, whose rate and
minimal fee come from the single linear fit `fit_linear_model` over all
valid points.  The second conjunct justifies calling that fit
"least-squares": for any point list with at least two points and a
non-degenerate design (`dOf ≠ 0`), `fit_linear_model` is the
normal-equation solution `lstsqSol` with its fee clamped at `0`, and
`lstsqSol` minimizes the sum of squared residuals over all candidate
`(rate, fee)` pairs. -/
theorem c9_kmeans_fallback (clusterPath : List (ℚ × ℚ) → ℕ → KMeansAnalysis)
    (pairs : List (ℚ × ℚ)) (min_cluster_size : ℕ)
    (h1 : 0 < (pairs.filter (fun p => decide (0 < p.1))).length)
    (h2 : (pairs.filter (fun p => decide (0 < p.1))).length < min_cluster_size) :
    (analyze_rates_kmeans clusterPath pairs min_cluster_size =
      { total_transactions := pairs.length,
        valid_transactions := (pairs.filter (fun p => decide (0 < p.1))).length,
        num_clusters := 1,
        clusters := [{ cluster_id := 0,
                       rate_percent :=
                         pyRound 4
                           ((fit_linear_model (pairs.filter (fun p => decide (0 < p.1)))).1 * 100),
                       minimal_fee :=
                         pyRound 4 (fit_linear_model (pairs.filter (fun p => decide (0 < p.1)))).2,
                       transaction_count := (pairs.filter (fun p => decide (0 < p.1))).length,
                       percentage_of_total := 100 }],
        error := false }) ∧
    (∀ pts : List (ℚ × ℚ), 2 ≤ pts.length → dOf pts ≠ 0 →
      fit_linear_model pts = ((lstsqSol pts).1, max 0 (lstsqSol pts).2) ∧
      ∀ rf : ℚ × ℚ, ssrOf pts (lstsqSol pts) ≤ ssrOf pts rf) := by
  constructor
  · unfold analyze_rates_kmeans
    rw [if_neg (by omega), if_pos h2]
  · intro pts hlen hd
    have hn : (pts.length : ℚ) ≠ 0 := by
      have : pts.length ≠ 0 := by omega
      exact_mod_cast this
    exact ⟨fit_eq_lstsq pts hlen hd, fun rf => lstsq_optimal pts hn hd rf⟩

/-- Witness for C9 at three valid points and `min_cluster_size = 10`. -/
theorem c9_kmeans_fallback_witness :
    0 < ([((1:ℚ), (2:ℚ)), (2, 3), (3, 5)].filter (fun p => decide (0 < p.1))).length ∧
    ([((1:ℚ), (2:ℚ)), (2, 3), (3, 5)].filter (fun p => decide (0 < p.1))).length < 10 ∧
    (analyze_rates_kmeans (fun _ _ => ⟨0, 0, 0, [], true⟩)
        [((1:ℚ), 2), (2, 3), (3, 5)] 10).num_clusters = 1 :=
  ⟨by decide, by decide, by
    rw [(c9_kmeans_fallback (fun _ _ => ⟨0, 0, 0, [], true⟩)
      [((1:ℚ), 2), (2, 3), (3, 5)] 10 (by decide) (by decide)).1]⟩

/- ## C7, C8 — the sorting clusterer -/

theorem insertLe_sorted_le (a : ℚ) (l : List ℚ) (h : l.Sorted (· ≤ ·)) :
    (insertLe (fun x y => decide (x ≤ y)) a l).Sorted (· ≤ ·) := by
  induction l with
  | nil => simp [insertLe]
  | cons b t ih =>
    rcases List.sorted_cons.mp h with ⟨hb, ht⟩
    unfold insertLe
    by_cases hab : a ≤ b
    · rw [if_pos (by simpa using hab)]
      refine List.sorted_cons.mpr ⟨?_, h⟩
      intro x hx
      rcases List.mem_cons.mp hx with rfl | hxt
      · exact hab
      · exact le_trans hab (hb x hxt)
    · rw [if_neg (by simpa using hab)]
      have hba : b ≤ a := le_of_not_le hab
      refine List.sorted_cons.mpr ⟨?_, ih ht⟩
      intro x hx
      have hx2 : x ∈ a :: t := (insertLe_perm _ a t).mem_iff.mp hx
      rcases List.mem_cons.mp hx2 with rfl | hxt
      · exact hba
      · exact hb x hxt

theorem sortByLe_sorted_le (l : List ℚ) :
    (sortByLe (fun x y => decide (x ≤ y)) l).Sorted (· ≤ ·) := by
  induction l with
  | nil => simp [sortByLe]
  | cons a t ih =>
    unfold sortByLe
    exact insertLe_sorted_le a _ ih

theorem sortByLe_eq_of_perm (l1 l2 : List ℚ) (h : l1.Perm l2) :
    sortByLe (fun x y => decide (x ≤ y)) l1 = sortByLe (fun x y => decide (x ≤ y)) l2 :=
  List.eq_of_perm_of_sorted
    ((sortByLe_perm _ l1).trans (h.trans (sortByLe_perm _ l2).symm))
    (sortByLe_sorted_le l1) (sortByLe_sorted_le l2)

/-- C8: for every pair of amount/commission input lists that are
permutations of each other (paired rows reordered), `analyze_rates_sorting`
— for any `min_rate_diff`/`min_cluster_size` — reports the same number of
clusters and the same per-cluster `rate_percent` (median rate) list; the
whole analysis result is in fact identical, being a function of the sorted
multiset of valid rates and the row count. -/
theorem c8_perm_invariant (p1 p2 : List (ℚ × ℚ)) (mrd : ℚ) (mcs : ℕ) (h : p1.Perm p2) :
    (analyze_rates_sorting p1 mrd mcs).num_clusters
      = (analyze_rates_sorting p2 mrd mcs).num_clusters ∧
    (analyze_rates_sorting p1 mrd mcs).clusters.map (fun c => c.rate_percent)
      = (analyze_rates_sorting p2 mrd mcs).clusters.map (fun c => c.rate_percent) := by
  have hrates : (ratesOf p1).Perm (ratesOf p2) := h.filterMap _
  have hlen : (ratesOf p1).length = (ratesOf p2).length := hrates.length_eq
  have hsort : sortByLe (fun x y => decide (x ≤ y)) (ratesOf p1)
      = sortByLe (fun x y => decide (x ≤ y)) (ratesOf p2) := sortByLe_eq_of_perm _ _ hrates
  have heq : analyze_rates_sorting p1 mrd mcs = analyze_rates_sorting p2 mrd mcs := by
    simp only [analyze_rates_sorting]
    rw [h.length_eq, hlen, hsort]
  rw [heq]
  exact ⟨rfl, rfl⟩

/-- Witness for C8 on a concrete two-row swap. -/
theorem c8_perm_invariant_witness :
    ([((1:ℚ), (2:ℚ)), (3, 4)]).Perm ([((3:ℚ), (4:ℚ)), (1, 2)]) ∧
    (analyze_rates_sorting [((1:ℚ), 2), (3, 4)] 0.001 10).num_clusters
      = (analyze_rates_sorting [((3:ℚ), 4), (1, 2)] 0.001 10).num_clusters ∧
    (analyze_rates_sorting [((1:ℚ), 2), (3, 4)] 0.001 10).clusters.map (fun c => c.rate_percent)
      = (analyze_rates_sorting [((3:ℚ), 4), (1, 2)] 0.001 10).clusters.map
          (fun c => c.rate_percent) :=
  ⟨List.Perm.swap ((3:ℚ), (4:ℚ)) ((1:ℚ), (2:ℚ)) [],
   (c8_perm_invariant _ _ 0.001 10 (List.Perm.swap ((3:ℚ), (4:ℚ)) ((1:ℚ), (2:ℚ)) [])).1,
   (c8_perm_invariant _ _ 0.001 10 (List.Perm.swap ((3:ℚ), (4:ℚ)) ((1:ℚ), (2:ℚ)) [])).2⟩

theorem takeWhile_append_of_all {α : Type} (p : α → Bool) (l1 l2 : List α)
    (h : ∀ x ∈ l1, p x = true) :
    (l1 ++ l2).takeWhile p = l1 ++ l2.takeWhile p := by
  induction l1 with
  | nil => simp
  | cons a t ih =>
    have ha : p a = true := h a (List.mem_cons_self a t)
    simp only [List.cons_append, List.takeWhile_cons, ha, if_true]
    rw [ih (fun x hx => h x (List.mem_cons_of_mem a hx))]

theorem takeWhile_eq_nil_of_all {α : Type} (p : α → Bool) (l : List α)
    (h : ∀ x ∈ l, p x = false) : l.takeWhile p = [] := by
  cases l with
  | nil => rfl
  | cons a t =>
    simp only [List.takeWhile_cons, h a (List.mem_cons_self a t)]
    rfl

theorem takeWhile_length_le {α : Type} (p : α → Bool) (l : List α) :
    (l.takeWhile p).length ≤ l.length := by
  induction l with
  | nil => simp
  | cons a t ih =>
    rw [List.takeWhile_cons]
    by_cases h : p a
    · simpa [h] using ih
    · simp [h]

theorem scanClusters_small (minSize : ℕ) (eps : ℚ) (l : List ℚ) (h : l.length < minSize) :
    scanClusters minSize eps l = ([], l.length) := by
  induction l with
  | nil => simp [scanClusters]
  | cons r rest ih =>
    rw [scanClusters]
    have hw := takeWhile_length_le (fun x => decide (x - r ≤ eps)) (r :: rest)
    rw [dif_neg (by
      rintro ⟨h1, _⟩
      simp only [List.length_cons] at hw h
      omega)]
    have hrest : rest.length < minSize := by
      simp only [List.length_cons] at h
      omega
    rw [ih hrest]
    simp

theorem scanClusters_cluster (minSize : ℕ) (eps : ℚ) (r : ℚ) (lp lq : List ℚ)
    (hall : ∀ x ∈ r :: lp, x - r ≤ eps)
    (hq : ∀ y ∈ lq, ¬(y - r ≤ eps))
    (hsize : minSize ≤ (r :: lp).length) :
    scanClusters minSize eps ((r :: lp) ++ lq)
      = ((r :: lp) :: (scanClusters minSize eps lq).1, (scanClusters minSize eps lq).2) := by
  have hw : (((r :: lp) ++ lq).takeWhile (fun x => decide (x - r ≤ eps))) = r :: lp := by
    rw [takeWhile_append_of_all _ _ _ (fun x hx => decide_eq_true (hall x hx)),
      takeWhile_eq_nil_of_all _ _ (fun y hy => decide_eq_false (hq y hy)),
      List.append_nil]
  rw [List.cons_append, scanClusters]
  rw [show (r :: (lp ++ lq)).takeWhile (fun x => decide (x - r ≤ eps)) = r :: lp from
    (List.cons_append r lp lq) ▸ hw]
  rw [dif_pos (⟨hsize, by simp⟩ : minSize ≤ (r :: lp).length ∧ 1 ≤ (r :: lp).length)]
  have hdrop : (r :: (lp ++ lq)).drop (r :: lp).length = lq := by
    rw [← List.cons_append]
    exact List.drop_left (r :: lp) lq
  rw [hdrop]

theorem ratesOf_eq_map (pairs : List (ℚ × ℚ)) (hpos : ∀ p ∈ pairs, 0 < p.1) :
    ratesOf pairs = pairs.map (fun p => p.2 / p.1) := by
  induction pairs with
  | nil => rfl
  | cons a t ih =>
    have ha : 0 < a.1 := hpos a (List.mem_cons_self a t)
    simp only [ratesOf, List.filterMap_cons, if_pos ha, List.map_cons]
    rw [← ratesOf, ih (fun p hp => hpos p (List.mem_cons_of_mem a hp))]

theorem sorted_split_bands (l : List ℚ) (P Q : ℚ → Prop) (u v : ℚ)
    (hs : l.Sorted (· ≤ ·))
    (hPQ : ∀ x ∈ l, P x ∨ Q x)
    (hPu : ∀ x, P x → x ≤ u) (hQv : ∀ y, Q y → v ≤ y) (huv : u < v) :
    ∃ lp lq, l = lp ++ lq ∧ (∀ x ∈ lp, P x) ∧ (∀ y ∈ lq, Q y) := by
  induction l with
  | nil => exact ⟨[], [], rfl, by simp, by simp⟩
  | cons a t ih =>
    rcases List.sorted_cons.mp hs with ⟨hat, ht⟩
    rcases hPQ a (List.mem_cons_self a t) with hPa | hQa
    · obtain ⟨lp, lq, heq, hlp, hlq⟩ :=
        ih ht (fun x hx => hPQ x (List.mem_cons_of_mem a hx))
      refine ⟨a :: lp, lq, by rw [heq, List.cons_append], ?_, hlq⟩
      intro x hx
      rcases List.mem_cons.mp hx with rfl | hx2
      · exact hPa
      · exact hlp x hx2
    · refine ⟨[], a :: t, rfl, by simp, ?_⟩
      intro y hy
      rcases List.mem_cons.mp hy with rfl | hy2
      · exact hQa
      · rcases hPQ y (List.mem_cons_of_mem a hy2) with hPy | hQy
        · exfalso
          have h1 : y ≤ u := hPu y hPy
          have h2 : v ≤ a := hQv a hQa
          have h3 : a ≤ y := hat y hy2
          linarith
        · exact hQy

/-- C7: for every 100-row input with positive amounts in which 95 rows
have commission/amount ratio within `[0.0379, 0.0381]` and the other 5
have ratio `≥ 0.05`, the sorting clusterer with the defaults
`min_rate_diff = 0.001`, `min_cluster_size = 10` reports exactly one
cluster containing the 95 rows, 5 outliers, and
`outlier_percentage = 5.0`. -/
theorem c7_scenario (pairs : List (ℚ × ℚ))
    (hlen : pairs.length = 100)
    (hpos : ∀ p ∈ pairs, 0 < p.1)
    (hbands : ∀ p ∈ pairs, inLowBand (p.2 / p.1) ∨ inHighBand (p.2 / p.1))
    (hlow : pairs.countP (fun p => decide (inLowBand (p.2 / p.1))) = 95)
    (hhigh : pairs.countP (fun p => decide (inHighBand (p.2 / p.1))) = 5) :
    (analyze_rates_sorting pairs 0.001 10).num_clusters = 1 ∧
    (analyze_rates_sorting pairs 0.001 10).clusters.map (fun c => c.transaction_count)
      = [95] ∧
    (analyze_rates_sorting pairs 0.001 10).outlier_count = 5 ∧
    (analyze_rates_sorting pairs 0.001 10).outlier_percentage = 5 ∧
    (analyze_rates_sorting pairs 0.001 10).error = false := by
  have hrmap : ratesOf pairs = pairs.map (fun p => p.2 / p.1) := ratesOf_eq_map pairs hpos
  have hrlen : (ratesOf pairs).length = 100 := by rw [hrmap, List.length_map, hlen]
  have hsperm : (sortByLe (fun a b => decide (a ≤ b)) (ratesOf pairs)).Perm (ratesOf pairs) :=
    sortByLe_perm _ _
  have hslen : (sortByLe (fun a b => decide (a ≤ b)) (ratesOf pairs)).length = 100 := by
    rw [hsperm.length_eq, hrlen]
  have hsorted := sortByLe_sorted_le (ratesOf pairs)
  have hsPQ : ∀ x ∈ sortByLe (fun a b => decide (a ≤ b)) (ratesOf pairs),
      inLowBand x ∨ inHighBand x := by
    intro x hx
    have hx2 : x ∈ ratesOf pairs := hsperm.mem_iff.mp hx
    rw [hrmap] at hx2
    obtain ⟨p, hp, rfl⟩ := List.mem_map.mp hx2
    exact hbands p hp
  obtain ⟨lp, lq, hseq, hlpP, hlqQ⟩ :=
    sorted_split_bands (sortByLe (fun a b => decide (a ≤ b)) (ratesOf pairs))
      inLowBand inHighBand 0.0381 0.05 hsorted hsPQ
      (fun x hx => hx.2) (fun y hy => hy) (by norm_num)
  have hcountLow : (sortByLe (fun a b => decide (a ≤ b)) (ratesOf pairs)).countP
      (fun x => decide (inLowBand x)) = 95 := by
    rw [hsperm.countP_eq, hrmap, List.countP_map]
    exact hlow
  have hlpAll : ∀ x ∈ lp, (fun x => decide (inLowBand x)) x = true :=
    fun x hx => decide_eq_true (hlpP x hx)
  have hlqNone : ∀ y ∈ lq, ¬(fun x => decide (inLowBand x)) y = true := by
    intro y hy hc
    have h1 : inLowBand y := of_decide_eq_true hc
    have h2 : inHighBand y := hlqQ y hy
    have : (0.05 : ℚ) ≤ 0.0381 := le_trans h2 h1.2
    norm_num at this
  have hlplen : lp.length = 95 := by
    have := hcountLow
    rw [hseq, List.countP_append] at this
    rw [List.countP_eq_length.mpr hlpAll] at this
    rw [List.countP_eq_zero.mpr hlqNone] at this
    omega
  have hlqlen : lq.length = 5 := by
    have h1 : lp.length + lq.length = 100 := by
      rw [← List.length_append, ← hseq, hslen]
    omega
  obtain ⟨r, lp2, rfl⟩ : ∃ r lp2, lp = r :: lp2 := by
    rcases lp with _ | ⟨r, lp2⟩
    · simp at hlplen
    · exact ⟨r, lp2, rfl⟩
  have hrLow : inLowBand r := hlpP r (List.mem_cons_self r lp2)
  have hall : ∀ x ∈ r :: lp2, x - r ≤ 0.001 / 2 := by
    intro x hx
    have hxLow : inLowBand x := hlpP x hx
    have h1 : x ≤ 0.0381 := hxLow.2
    have h2 : (0.0379 : ℚ) ≤ r := hrLow.1
    have : x - r ≤ 0.0381 - 0.0379 := by linarith
    linarith [show (0.0381 : ℚ) - 0.0379 ≤ 0.001 / 2 from by norm_num]
  have hq : ∀ y ∈ lq, ¬(y - r ≤ 0.001 / 2) := by
    intro y hy hc
    have h1 : (0.05 : ℚ) ≤ y := hlqQ y hy
    have h2 : r ≤ 0.0381 := hrLow.2
    have : (0.05 : ℚ) - 0.0381 ≤ y - r := by linarith
    have hlt : (0.001 : ℚ) / 2 < 0.05 - 0.0381 := by norm_num
    linarith
  have hsize : 10 ≤ (r :: lp2).length := by
    rw [show (r :: lp2).length = 95 from hlplen]
    omega
  have hscanlq : scanClusters 10 (0.001 / 2) lq = ([], 5) := by
    rw [scanClusters_small 10 (0.001 / 2) lq (by omega), hlqlen]
  have hscan : scanClusters 10 (0.001 / 2)
      (sortByLe (fun a b => decide (a ≤ b)) (ratesOf pairs)) = ([r :: lp2], 5) := by
    rw [hseq, scanClusters_cluster 10 (0.001 / 2) r lp2 lq hall hq hsize, hscanlq]
  simp only [analyze_rates_sorting, hrlen, hscan]
  norm_num [sortByLe, insertLe, List.enum, List.enumFrom, hlplen, pyRound, roundHalfEven]

/-- Witness for C7 at the concrete `c7pairs` input. -/
theorem c7_scenario_witness :
    c7pairs.length = 100 ∧
    (∀ p ∈ c7pairs, 0 < p.1) ∧
    (∀ p ∈ c7pairs, inLowBand (p.2 / p.1) ∨ inHighBand (p.2 / p.1)) ∧
    c7pairs.countP (fun p => decide (inLowBand (p.2 / p.1))) = 95 ∧
    c7pairs.countP (fun p => decide (inHighBand (p.2 / p.1))) = 5 ∧
    (analyze_rates_sorting c7pairs 0.001 10).num_clusters = 1 ∧
    (analyze_rates_sorting c7pairs 0.001 10).outlier_count = 5 ∧
    (analyze_rates_sorting c7pairs 0.001 10).outlier_percentage = 5 := by
  have h1 : c7pairs.length = 100 := by decide
  have h2 : ∀ p ∈ c7pairs, 0 < p.1 := by decide
  have h3 : ∀ p ∈ c7pairs, inLowBand (p.2 / p.1) ∨ inHighBand (p.2 / p.1) := by
    intro p hp
    rcases List.mem_append.mp hp with h | h
    · left
      rw [List.eq_of_mem_replicate h]
      constructor <;> norm_num
    · right
      rw [List.eq_of_mem_replicate h]
      norm_num [inHighBand]
  have h4 : c7pairs.countP (fun p => decide (inLowBand (p.2 / p.1))) = 95 := by
    unfold c7pairs
    rw [List.countP_append, List.countP_replicate, List.countP_replicate]
    norm_num [inLowBand]
  have h5 : c7pairs.countP (fun p => decide (inHighBand (p.2 / p.1))) = 5 := by
    unfold c7pairs
    rw [List.countP_append, List.countP_replicate, List.countP_replicate]
    norm_num [inHighBand]
  exact ⟨h1, h2, h3, h4, h5, (c7_scenario c7pairs h1 h2 h3 h4 h5).1,
    (c7_scenario c7pairs h1 h2 h3 h4 h5).2.2.1,
    (c7_scenario c7pairs h1 h2 h3 h4 h5).2.2.2.1⟩
